import Mathlib

/-!
# Verification of the Minecraft server-status protocol client

A shallow embedding, in Lean 4, of the protocol core of the
`MCServerStatus_backend` repository (`internal/service/server.go` and the
near-duplicate second version of the same file).  Byte strings are modelled
as `List Nat` (each element a byte value `< 256`), Go's `int32` arithmetic
as `Nat`/`Int` with explicit reduction modulo `2^32`, and fallible
operations as `Except`/`Option` values.  All definitions are executable.
-/

set_option maxRecDepth 8000

/-- Go's `uint32(val)` conversion: reinterpret a signed value as an
unsigned 32-bit integer. -/
def u32 (v : Int) : Nat := (v % 4294967296).toNat

/-- Reinterpret an unsigned 32-bit value (a `Nat` below `2^32`) as a Go
`int32`, two's complement. -/
def toInt32 (n : Nat) : Int :=
  if n < 2147483648 then (n : Int) else (n : Int) - 4294967296

/-- The encoding loop of `PacketBuffer.WriteVarInt` in `server.go`
(lines 52-73): while `ux >= 0x80` emit `byte(ux) | 0x80` and shift `ux`
right by 7; finally emit `byte(ux)`. -/
def writeVarIntLoop (ux : Nat) : List Nat :=
  if ux ≥ 128 then (ux % 256 ||| 128) :: writeVarIntLoop (ux >>> 7)
  else [ux % 256]
termination_by ux
decreasing_by
  simp only [Nat.shiftRight_eq_div_pow]
  exact Nat.div_lt_self (by omega) (by norm_num)

/-- `PacketBuffer.WriteVarInt` (`server.go`): convert the signed argument
to `uint32` and run the encoding loop. -/
def WriteVarInt (val : Int) : List Nat := writeVarIntLoop (u32 val)

/-- Errors surfaced by the reading side of the protocol client. -/
inductive ProtoErr where
  /-- the reader ran out of input bytes (an `io` read error) -/
  | eof
  /-- `readVarInt`'s "VarInt 太長" error -/
  | varIntTooLong
  /-- `binary.ReadUvarint`'s overflow error -/
  | uvarintOverflow
  /-- `readAndParseResponse`'s "無效的數據包 ID" error -/
  | invalidPacketID (id : Int)
deriving DecidableEq

/-- The loop of `readVarInt` (`server.go` lines 222-241): read one byte,
OR `int32(b & 0x7F) << shift` into the `int32` accumulator (the shifted
value is truncated to 32 bits, as Go's `int32` shift is), stop on a clear
high bit, and fail once `shift` reaches 32.  The accumulator is kept as a
`Nat` below `2^32` and reinterpreted by `toInt32` on return. -/
def readVarIntLoop : List Nat → Nat → Nat → Except ProtoErr (Int × List Nat)
  | [], _, _ => .error .eof
  | b :: rest, result, shift =>
    let result' := result ||| (((b &&& 127) <<< shift) % 4294967296)
    if b &&& 128 = 0 then .ok (toInt32 result', rest)
    else if shift + 7 ≥ 32 then .error .varIntTooLong
    else readVarIntLoop rest result' (shift + 7)

/-- `readVarInt` (`server.go`): run the loop with a zero accumulator,
returning the decoded value and the unconsumed remainder of the input. -/
def readVarInt (input : List Nat) : Except ProtoErr (Int × List Nat) :=
  readVarIntLoop input 0 0

/-- The spec-side accumulation formula for `readVarInt`: OR the low seven
bits of each byte into the result at shift offsets 0, 7, 14, …, each
shifted value truncated to 32 bits. -/
def varIntAccumFrom (acc shift : Nat) : List Nat → Nat
  | [] => acc
  | b :: bs =>
    varIntAccumFrom (acc ||| (((b &&& 127) <<< shift) % 4294967296)) (shift + 7) bs

/-- The value `readVarInt` accumulates over a byte sequence. -/
def varIntAccum (bs : List Nat) : Nat := varIntAccumFrom 0 0 bs

-- ## Bit-arithmetic helper lemmas

theorem byte_or128_eq (x : Nat) (h : x < 256) : x ||| 128 = x % 128 + 128 := by
  have : ∀ y < 256, y ||| 128 = y % 128 + 128 := by decide
  exact this x h

theorem and127_eq_mod (x : Nat) : x &&& 127 = x % 128 := by
  have h : (127 : Nat) = 2 ^ 7 - 1 := by norm_num
  rw [h, Nat.and_pow_two_sub_one_eq_mod]

theorem and128_eq_zero_iff (x : Nat) (h : x < 256) : x &&& 128 = 0 ↔ x < 128 := by
  have : ∀ y < 256, (y &&& 128 = 0) = (y < 128) := by decide
  rw [← this x h]

theorem or_shift_eq_add {a : Nat} (x s : Nat) (ha : a < 2 ^ s) :
    a ||| x * 2 ^ s = a + x * 2 ^ s := by
  have h := Nat.mul_add_lt_is_or (i := s) (b := a) ha x
  rw [Nat.or_comm, Nat.mul_comm] at h
  omega

theorem or_mod_two_pow (p q n : Nat) :
    (p ||| q) % 2 ^ n = p % 2 ^ n ||| q % 2 ^ n := by
  rw [← Nat.and_pow_two_sub_one_eq_mod (p ||| q), ← Nat.and_pow_two_sub_one_eq_mod p,
    ← Nat.and_pow_two_sub_one_eq_mod q, Nat.and_distrib_right]

theorem and128_of_or128 (x : Nat) (h : x < 256) : (x ||| 128) &&& 128 ≠ 0 := by
  have : ∀ y < 256, (y ||| 128) &&& 128 ≠ 0 := by decide
  exact this x h

-- ## The round-trip lemma

theorem readVarIntLoop_writeVarIntLoop (ux : Nat) :
    ∀ acc shift rest, shift ≤ 28 → 7 ∣ shift → ux < 2 ^ (32 - shift) →
      acc < 2 ^ shift →
      readVarIntLoop (writeVarIntLoop ux ++ rest) acc shift =
        .ok (toInt32 (acc + ux * 2 ^ shift), rest) := by
  induction ux using Nat.strong_induction_on with
  | _ ux ih =>
    intro acc shift rest hs hdvd hux hacc
    rw [writeVarIntLoop]
    by_cases hbig : ux ≥ 128
    · -- continuation byte
      have hshift : shift ≤ 21 := by
        rcases hdvd with ⟨k, rfl⟩
        have : (128 : Nat) ≤ 2 ^ (32 - 7 * k) := le_trans hbig (le_of_lt hux)
        have h128 : (128 : Nat) = 2 ^ 7 := by norm_num
        rw [h128] at this
        have h7 : 7 ≤ 32 - 7 * k := (Nat.pow_le_pow_iff_right (by norm_num)).mp this
        omega
      simp only [if_pos hbig, List.cons_append]
      rw [readVarIntLoop]
      have hb256 : ux % 256 < 256 := Nat.mod_lt _ (by norm_num)
      have hcont := and128_of_or128 (ux % 256) hb256
      simp only [if_neg hcont]
      have hlt32 : ¬ (shift + 7 ≥ 32) := by omega
      simp only [if_neg hlt32]
      have hand : (ux % 256 ||| 128) &&& 127 = ux % 128 := by
        rw [and127_eq_mod, byte_or128_eq _ hb256, Nat.add_mod_right,
          Nat.mod_mod_of_dvd _ (by norm_num), Nat.mod_mod_of_dvd _ (by norm_num)]
      have hmodsmall : (ux % 128) * 2 ^ shift < 4294967296 := by
        have h1 : ux % 128 ≤ 127 := by omega
        have h2 : (2 : Nat) ^ shift ≤ 2 ^ 21 := Nat.pow_le_pow_right (by norm_num) hshift
        have h3 : ux % 128 * 2 ^ shift ≤ 127 * 2 ^ 21 := Nat.mul_le_mul h1 h2
        have h4 : (127 : Nat) * 2 ^ 21 < 4294967296 := by norm_num
        omega
      have hshiftleft : ((ux % 256 ||| 128) &&& 127) <<< shift % 4294967296
          = (ux % 128) * 2 ^ shift := by
        rw [hand, Nat.shiftLeft_eq, Nat.mod_eq_of_lt hmodsmall]
      rw [hshiftleft, or_shift_eq_add _ _ hacc]
      have hrec : ux >>> 7 < 2 ^ (32 - (shift + 7)) := by
        rw [Nat.shiftRight_eq_div_pow]
        have heq : (2 : Nat) ^ 7 * 2 ^ (32 - (shift + 7)) = 2 ^ (32 - shift) := by
          rw [← pow_add]
          congr 1
          omega
        refine Nat.div_lt_of_lt_mul ?_
        rw [heq]
        exact hux
      have hacc' : acc + (ux % 128) * 2 ^ shift < 2 ^ (shift + 7) := by
        have h2 : (ux % 128) * 2 ^ shift ≤ 127 * 2 ^ shift :=
          Nat.mul_le_mul_right _ (by omega)
        have h3 : (2 : Nat) ^ (shift + 7) = 128 * 2 ^ shift := by
          rw [pow_add]; ring
        omega
      rw [ih (ux >>> 7) (by
            rw [Nat.shiftRight_eq_div_pow]
            exact Nat.div_lt_self (by omega) (by norm_num))
          _ _ rest (by omega) (by omega) hrec hacc']
      have hpow : (2 : Nat) ^ (shift + 7) = 2 ^ shift * 128 := by
        rw [pow_add]; ring
      rw [Nat.shiftRight_eq_div_pow, hpow]
      have hdm : ux % 128 + 128 * (ux / 128) = ux := Nat.mod_add_div ux 128
      have h7 : (2 : Nat) ^ 7 = 128 := by norm_num
      have harith : acc + ux % 128 * 2 ^ shift + ux / 2 ^ 7 * (2 ^ shift * 128)
          = acc + ux * 2 ^ shift := by
        have hgrp : ux % 128 * 2 ^ shift + ux / 128 * (2 ^ shift * 128)
            = (ux % 128 + 128 * (ux / 128)) * 2 ^ shift := by ring
        rw [h7, Nat.add_assoc, hgrp, hdm]
      rw [harith]
    · -- final byte
      have hux128 : ux < 128 := by omega
      simp only [if_neg hbig, List.cons_append, List.nil_append]
      rw [readVarIntLoop]
      have hmod : ux % 256 = ux := Nat.mod_eq_of_lt (by omega)
      have hterm : ux % 256 &&& 128 = 0 := by
        rw [hmod]
        exact (and128_eq_zero_iff ux (by omega)).mpr hux128
      simp only [if_pos hterm]
      congr 2
      have hand : ux % 256 &&& 127 = ux := by
        rw [hmod, and127_eq_mod, Nat.mod_eq_of_lt hux128]
      have hsmall : ux * 2 ^ shift < 4294967296 := by
        have h1 : (2 : Nat) ^ (32 - shift) * 2 ^ shift = 2 ^ 32 := by
          rw [← pow_add]
          congr 1
          omega
        have h2 : ux * 2 ^ shift < 2 ^ (32 - shift) * 2 ^ shift :=
          mul_lt_mul_of_pos_right hux (Nat.two_pow_pos _)
        have h3 : (2 : Nat) ^ 32 = 4294967296 := by norm_num
        omega
      rw [hand, Nat.shiftLeft_eq, Nat.mod_eq_of_lt hsmall, or_shift_eq_add _ _ hacc]

/-- C1: VarInt round-trip.  For every int32 value `v`, decoding the bytes
produced by `WriteVarInt v` returns exactly `v` and consumes exactly the
bytes written (any appended suffix is returned unconsumed). -/
theorem varint_round_trip (v : Int) (hlo : -2147483648 ≤ v) (hhi : v < 2147483648)
    (rest : List Nat) :
    readVarInt (WriteVarInt v ++ rest) = .ok (v, rest) := by
  unfold readVarInt WriteVarInt
  rw [readVarIntLoop_writeVarIntLoop (u32 v) 0 0 rest (by omega) ⟨0, rfl⟩
    (by unfold u32; omega) (by norm_num)]
  have h : toInt32 (0 + u32 v * 2 ^ 0) = v := by
    unfold u32 toInt32
    simp only [pow_zero, Nat.mul_one, Nat.zero_add]
    split <;> omega
  rw [h]

/-- Witness for C1 at `v = -1` with a nonempty suffix. -/
theorem varint_round_trip_witness :
    readVarInt (WriteVarInt (-1) ++ [7]) = .ok (-1, [7]) :=
  varint_round_trip (-1) (by norm_num) (by norm_num) [7]

-- ## C3: decode length limit

theorem readVarIntLoop_stops (pre : List Nat) :
    ∀ acc shift b rest, shift + 7 * pre.length ≤ 28 →
      (∀ x ∈ pre, x &&& 128 ≠ 0) → b &&& 128 = 0 →
      readVarIntLoop (pre ++ b :: rest) acc shift =
        .ok (toInt32 (varIntAccumFrom acc shift (pre ++ [b])), rest) := by
  induction pre with
  | nil =>
    intro acc shift b rest _ _ hb
    simp [readVarIntLoop, varIntAccumFrom, hb]
  | cons x pre ih =>
    intro acc shift b rest hlen hcont hb
    have hx : x &&& 128 ≠ 0 := hcont x (List.mem_cons_self x pre)
    have hlen' : shift + 7 * pre.length + 7 ≤ 28 := by
      simp only [List.length_cons] at hlen
      omega
    rw [List.cons_append, readVarIntLoop]
    simp only [if_neg hx, if_neg (by omega : ¬ shift + 7 ≥ 32), List.cons_append,
      varIntAccumFrom]
    exact ih _ (shift + 7) b rest (by omega)
      (fun y hy => hcont y (List.mem_cons_of_mem _ hy)) hb

/-- C3: VarInt decode length limit.  A stream whose first five bytes all
carry the continuation (high) bit makes `readVarInt` fail with the
"VarInt too long" protocol error; a stream whose varint terminates within
five bytes (a byte with a clear high bit preceded by at most four
continuation bytes) decodes without error to the accumulated value,
consuming exactly those bytes. -/
theorem varint_decode_length_limit :
    (∀ b0 b1 b2 b3 b4 rest, b0 &&& 128 ≠ 0 → b1 &&& 128 ≠ 0 → b2 &&& 128 ≠ 0 →
      b3 &&& 128 ≠ 0 → b4 &&& 128 ≠ 0 →
      readVarInt (b0 :: b1 :: b2 :: b3 :: b4 :: rest) = .error .varIntTooLong) ∧
    (∀ pre b rest, pre.length ≤ 4 → (∀ x ∈ pre, x &&& 128 ≠ 0) → b &&& 128 = 0 →
      readVarInt (pre ++ b :: rest) = .ok (toInt32 (varIntAccum (pre ++ [b])), rest)) := by
  constructor
  · intro b0 b1 b2 b3 b4 rest h0 h1 h2 h3 h4
    simp [readVarInt, readVarIntLoop, h0, h1, h2, h3, h4]
  · intro pre b rest hlen hcont hb
    exact readVarIntLoop_stops pre 0 0 b rest (by omega) hcont hb

/-- Witness for C3: five continuation bytes error out; `[0x81, 0x01]`
terminates within five bytes and decodes cleanly. -/
theorem varint_decode_length_limit_witness :
    readVarInt [255, 255, 255, 255, 255, 9] = .error .varIntTooLong ∧
    readVarInt ([129] ++ 1 :: [5]) = .ok (toInt32 (varIntAccum ([129] ++ [1])), [5]) :=
  ⟨varint_decode_length_limit.1 255 255 255 255 255 [9]
      (by decide) (by decide) (by decide) (by decide) (by decide),
    varint_decode_length_limit.2 [129] 1 [5] (by decide) (by decide) (by decide)⟩

/-- C7: the specified VarInt encodings.  `WriteVarInt 0` is the single
byte `0x00`, and `WriteVarInt (-1)` is the five bytes
`FF FF FF FF 0F` — the unsigned-32-bit wraparound of `-1`, not a longer
sign-extended encoding. -/
theorem writeVarInt_specified_encodings :
    WriteVarInt 0 = [0] ∧ WriteVarInt (-1) = [255, 255, 255, 255, 15] := by
  constructor
  · have h : u32 0 = 0 := by decide
    rw [WriteVarInt, h]
    simp [writeVarIntLoop]
  · have h : u32 (-1) = 4294967295 := by decide
    rw [WriteVarInt, h]
    simp [writeVarIntLoop]

-- ## Packet buffer and framer (server.go lines 75-92, 244-272)

/-- `PacketBuffer.WriteString`: the byte length of the string (Go `len`,
cast to `int32`) as a varint, then the raw bytes. -/
def WriteString (s : List Nat) : List Nat := WriteVarInt (Int.ofNat s.length) ++ s

/-- `PacketBuffer.WriteUnsignedShort`: `binary.Write` of a `uint16` in
big-endian byte order. -/
def WriteUnsignedShort (p : Nat) : List Nat := [(p >>> 8) % 256, p % 256]

/-- `sendPacket` (`server.go` lines 262-272): prefix the packet body with
its length (cast to `int32`) as a varint; the whole frame is written to
the connection in a single `Write` call. -/
def sendPacket (data : List Nat) : List Nat := WriteVarInt (Int.ofNat data.length) ++ data

/-- `sendHandshakePacket` (`server.go` lines 244-252): packet id `0x00`,
protocol version `-1`, the server address string, the server port, and
next-state `1`, framed by `sendPacket`. -/
def sendHandshakePacket (host : List Nat) (port : Nat) : List Nat :=
  sendPacket (WriteVarInt 0 ++ WriteVarInt (-1) ++ WriteString host ++
    WriteUnsignedShort port ++ WriteVarInt 1)

-- ## Evaluation helpers for the encoder

theorem u32_zero : u32 0 = 0 := by decide

theorem u32_negOne : u32 (-1) = 4294967295 := by decide

theorem u32_one : u32 1 = 1 := by decide

theorem u32_ofNat (n : Nat) (h : n < 4294967296) : u32 (Int.ofNat n) = n := by
  unfold u32
  have hcast : (Int.ofNat n) = (n : Int) := rfl
  rw [hcast]
  omega

theorem writeVarIntLoop_small (n : Nat) (h : n < 128) : writeVarIntLoop n = [n] := by
  rw [writeVarIntLoop, if_neg (by omega), Nat.mod_eq_of_lt (by omega)]

theorem writeVarIntLoop_allFF : writeVarIntLoop 4294967295 = [255, 255, 255, 255, 15] := by
  simp [writeVarIntLoop]

theorem writeVarIntLoop_length_le (k : Nat) :
    ∀ n, n < 2 ^ (7 * (k + 1)) → (writeVarIntLoop n).length ≤ k + 1 := by
  induction k with
  | zero =>
    intro n hn
    rw [writeVarIntLoop_small n (by norm_num at hn; omega)]
    simp
  | succ k ih =>
    intro n hn
    by_cases hbig : n ≥ 128
    · rw [writeVarIntLoop, if_pos hbig]
      have hrec : n >>> 7 < 2 ^ (7 * (k + 1)) := by
        rw [Nat.shiftRight_eq_div_pow]
        refine Nat.div_lt_of_lt_mul ?_
        have heq : (2 : Nat) ^ 7 * 2 ^ (7 * (k + 1)) = 2 ^ (7 * (k + 1 + 1)) := by
          rw [← pow_add]
          congr 1
          ring
        rw [heq]
        exact hn
      have := ih (n >>> 7) hrec
      simp only [List.length_cons]
      omega
    · rw [writeVarIntLoop_small n (by omega)]
      simp

/-- C2: handshake packet wire format.  For every host byte string `h`
(shorter than `2^31` bytes, so the Go `int` → `int32` length casts are
lossless) and every 16-bit port `p`, `sendHandshakePacket` produces
exactly `varint(len(body)) ++ body` where `body` is
`varint(0x00) ++ varint(-1) ++ varint(len h) ++ h ++ bigEndian16 p ++ varint(1)`. -/
theorem handshake_packet_wire_format (h : List Nat) (p : Nat)
    (hh : h.length < 2147483648) (hp : p < 65536) :
    sendHandshakePacket h p =
      writeVarIntLoop (9 + (writeVarIntLoop h.length).length + h.length) ++
        ([0] ++ [255, 255, 255, 255, 15] ++ writeVarIntLoop h.length ++ h ++
          [p / 256, p % 256] ++ [1]) := by
  have hport : (p >>> 8) % 256 = p / 256 := by
    have h8 : p >>> 8 = p / 256 := by
      rw [Nat.shiftRight_eq_div_pow]
    rw [h8, Nat.mod_eq_of_lt (show p / 256 < 256 by omega)]
  have hlen5 : (writeVarIntLoop h.length).length ≤ 5 :=
    writeVarIntLoop_length_le 4 h.length
      (by
        have hpow : (2 : Nat) ^ (7 * (4 + 1)) = 34359738368 := by norm_num
        omega)
  unfold sendHandshakePacket sendPacket WriteString WriteUnsignedShort WriteVarInt
  rw [u32_zero, u32_negOne, u32_one, writeVarIntLoop_small 0 (by norm_num),
    writeVarIntLoop_small 1 (by norm_num), writeVarIntLoop_allFF,
    u32_ofNat h.length (by omega), hport]
  simp only [List.append_assoc, List.cons_append, List.nil_append, List.length_append,
    List.length_cons, List.length_nil]
  rw [u32_ofNat _ (by omega)]
  congr 2
  omega

/-- Witness for C2 at host `"a"` (byte `0x61`) and the default port. -/
theorem handshake_packet_wire_format_witness :
    sendHandshakePacket [97] 25565 =
      writeVarIntLoop (9 + (writeVarIntLoop [97].length).length + [97].length) ++
        ([0] ++ [255, 255, 255, 255, 15] ++ writeVarIntLoop [97].length ++ [97] ++
          [25565 / 256, 25565 % 256] ++ [1]) :=
  handshake_packet_wire_format [97] 25565 (by norm_num) (by norm_num)

-- ## The second (near-duplicate) implementation: unnamed/part_001

/-- `binary.PutUvarint` from Go's standard library, as used by the
duplicate `PacketBuffer.WriteVarInt` (`part_001` lines 51-61): the
standard unsigned LEB128 loop over a `uint64`.  (The 5-byte scratch
buffer of the caller is large enough for every `uint32` input, so the
buffer bound is not modelled.) -/
def putUvarint (x : Nat) : List Nat :=
  if x ≥ 128 then (x % 256 ||| 128) :: putUvarint (x >>> 7)
  else [x % 256]
termination_by x
decreasing_by
  simp only [Nat.shiftRight_eq_div_pow]
  exact Nat.div_lt_self (by omega) (by norm_num)

/-- The duplicate `PacketBuffer.WriteVarInt` (`part_001`):
`binary.PutUvarint(buf, uint64(uint32(val)))`. -/
def WriteVarIntBuf (val : Int) : List Nat := putUvarint (u32 val)

/-- The loop of `binary.ReadUvarint` from Go's standard library
(`encoding/binary/varint.go`), as used by the duplicate response reader:
up to `MaxVarintLen64 = 10` bytes, accumulating into a `uint64`; a final
byte at index 9 larger than 1 overflows. -/
def readUvarintLoop : List Nat → Nat → Nat → Nat → Except ProtoErr (Nat × List Nat)
  | input, x, s, i =>
    if i ≥ 10 then .error .uvarintOverflow
    else
      match input with
      | [] => .error .eof
      | b :: rest =>
        if b < 128 then
          if i = 9 ∧ b > 1 then .error .uvarintOverflow
          else .ok (x ||| ((b <<< s) % 18446744073709551616), rest)
        else readUvarintLoop rest (x ||| (((b &&& 127) <<< s) % 18446744073709551616))
          (s + 7) (i + 1)

/-- `binary.ReadUvarint`: run the loop from a zero accumulator. -/
def readUvarint (input : List Nat) : Except ProtoErr (Nat × List Nat) :=
  readUvarintLoop input 0 0 0

/-- Result of a response reader: the JSON payload, an error, or a runtime
panic (Go's `make([]byte, n)` panics when `n` is negative). -/
inductive ReadResult where
  | ok (payload : List Nat)
  | err (e : ProtoErr)
  | panicked
deriving DecidableEq

/-- `readAndParseResponse` (`server.go` lines 188-219): read and discard
the packet length varint, read the packet id (must be 0), read the JSON
length varint, then `make([]byte, jsonLength)` — which panics when the
decoded `int32` is negative — and `io.ReadFull` that many bytes. -/
def readAndParseResponse (input : List Nat) : ReadResult :=
  match readVarInt input with
  | .error e => .err e
  | .ok (_, r1) =>
    match readVarInt r1 with
    | .error e => .err e
    | .ok (pid, r2) =>
      if pid ≠ 0 then .err (.invalidPacketID pid)
      else
        match readVarInt r2 with
        | .error e => .err e
        | .ok (n, r3) =>
          if n < 0 then .panicked
          else if r3.length < n.toNat then .err .eof
          else .ok (r3.take n.toNat)

/-- The duplicate `readAndParseResponse` (`part_001` lines 176-210): the
same sequence, but via a buffered reader and `binary.ReadUvarint`, whose
lengths and ids are unsigned `uint64` values.  (Failure of oversized
allocations is a resource limit and is not modelled.) -/
def readAndParseResponseBuf (input : List Nat) : ReadResult :=
  match readUvarint input with
  | .error e => .err e
  | .ok (_, r1) =>
    match readUvarint r1 with
    | .error e => .err e
    | .ok (pid, r2) =>
      if pid ≠ 0 then .err (.invalidPacketID (Int.ofNat pid))
      else
        match readUvarint r2 with
        | .error e => .err e
        | .ok (n, r3) =>
          if r3.length < n then .err .eof
          else .ok (r3.take n)

-- ## C10: response-reader totality

/-- Executable check: the first two varints of the stream decode, the
packet id is 0, and the third varint (the JSON length) decodes to a
negative `int32`. -/
def respJsonLenNegative (input : List Nat) : Bool :=
  match readVarInt input with
  | .error _ => false
  | .ok (_, r1) =>
    match readVarInt r1 with
    | .error _ => false
    | .ok (pid, r2) =>
      if pid ≠ 0 then false
      else
        match readVarInt r2 with
        | .error _ => false
        | .ok (n, _) => n < 0

/-- Counterexample to C10: on the stream `00 00 FF FF FF FF 0F` the
json-length varint decodes to `-1`, and `readAndParseResponse` reaches
`make([]byte, -1)` — a runtime panic, not a returned error. -/
theorem readAndParseResponse_negative_length_panics :
    readAndParseResponse [0, 0, 255, 255, 255, 255, 15] = .panicked ∧
    respJsonLenNegative [0, 0, 255, 255, 255, 255, 15] = true := by
  constructor <;> decide

/-- C10 (amended): `readAndParseResponse` returns the payload or an error
on every input except exactly those streams whose json-length varint
decodes to a negative `int32` with a valid packet id before it; on those
the allocation `make([]byte, jsonLength)` is reached with a negative
length and the function panics. -/
theorem readAndParseResponse_panic_iff (input : List Nat) :
    readAndParseResponse input = .panicked ↔ respJsonLenNegative input = true := by
  unfold readAndParseResponse respJsonLenNegative
  repeat' split
  all_goals simp_all

/-- Witness for C10's characterization at the panicking stream. -/
theorem readAndParseResponse_panic_iff_witness :
    respJsonLenNegative [1, 0, 255, 255, 255, 255, 15] = true :=
  (readAndParseResponse_panic_iff [1, 0, 255, 255, 255, 255, 15]).mp (by decide)

-- ## C8: the two duplicate implementations

theorem writeVarIntLoop_eq_putUvarint (x : Nat) : writeVarIntLoop x = putUvarint x := by
  induction x using Nat.strong_induction_on with
  | _ x ih =>
    rw [writeVarIntLoop, putUvarint]
    by_cases hbig : x ≥ 128
    · rw [if_pos hbig, if_pos hbig, ih (x >>> 7) (by
        rw [Nat.shiftRight_eq_div_pow]
        exact Nat.div_lt_self (by omega) (by norm_num))]
    · rw [if_neg hbig, if_neg hbig]

/-- Counterexample to C8: the two response readers do not fail on the same
inputs.  On a stream whose first varint consists of five continuation
bytes and a terminator, the manual reader rejects the varint while the
`ReadUvarint`-based reader accepts it and goes on to return the payload. -/
theorem response_readers_disagree :
    readAndParseResponse [128, 128, 128, 128, 128, 0, 0, 1, 65] = .err .varIntTooLong ∧
    readAndParseResponseBuf [128, 128, 128, 128, 128, 0, 0, 1, 65] = .ok [65] := by
  constructor <;> decide

theorem or_mod_32_64 (x q acc : Nat) (hacc : acc = x % 4294967296) :
    (x ||| q % 18446744073709551616) % 4294967296 = acc ||| q % 4294967296 := by
  have h32 : (4294967296 : Nat) = 2 ^ 32 := by norm_num
  have h64 : (18446744073709551616 : Nat) = 2 ^ 64 := by norm_num
  subst hacc
  rw [h32, h64, or_mod_two_pow, Nat.mod_mod_of_dvd _ (by norm_num : (2 : Nat) ^ 32 ∣ 2 ^ 64)]

theorem readVarIntLoop_refines (input : List Nat) :
    ∀ acc shift x i, (∀ b ∈ input, b < 256) → i ≤ 4 → shift = 7 * i →
      acc = x % 4294967296 →
      ∀ v rest, readVarIntLoop input acc shift = .ok (v, rest) →
      ∃ u, readUvarintLoop input x shift i = .ok (u, rest) ∧
        toInt32 (u % 4294967296) = v := by
  induction input with
  | nil =>
    intro acc shift x i _ _ _ _ v rest hok
    simp [readVarIntLoop] at hok
  | cons b rest' ih =>
    intro acc shift x i hbytes hi hshift hacc v rest hok
    have hb : b < 256 := hbytes b (List.mem_cons_self b rest')
    rw [readVarIntLoop] at hok
    rw [readUvarintLoop, if_neg (show ¬ i ≥ 10 by omega)]
    by_cases hterm : b &&& 128 = 0
    · have hblt : b < 128 := (and128_eq_zero_iff b hb).mp hterm
      simp only [if_pos hterm, Except.ok.injEq, Prod.mk.injEq] at hok
      obtain ⟨hv, hr⟩ := hok
      rw [if_pos hblt, if_neg (show ¬ (i = 9 ∧ b > 1) by omega)]
      refine ⟨_, by rw [hr], ?_⟩
      have hband : (b &&& 127) <<< shift = b <<< shift := by
        rw [and127_eq_mod, Nat.mod_eq_of_lt hblt]
      rw [or_mod_32_64 x (b <<< shift) acc hacc, ← hband]
      exact hv
    · have hbge : ¬ b < 128 := fun hlt => hterm ((and128_eq_zero_iff b hb).mpr hlt)
      simp only [if_neg hterm] at hok
      by_cases hbigshift : shift + 7 ≥ 32
      · rw [if_pos hbigshift] at hok
        exact absurd hok (by simp)
      · rw [if_neg hbigshift] at hok
        rw [if_neg hbge]
        exact ih _ (shift + 7) _ (i + 1)
          (fun y hy => hbytes y (List.mem_cons_of_mem _ hy)) (by omega) (by omega)
          (or_mod_32_64 x ((b &&& 127) <<< shift) acc hacc).symm v rest hok

/-- C8 (amended): the two duplicate `WriteVarInt` implementations emit
identical bytes for every value, and whenever the manual `readVarInt`
succeeds, `binary.ReadUvarint` succeeds on the same input consuming the
same bytes with a value that agrees modulo `2^32` (equal after the
`int32` reinterpretation).  The readers do not, however, fail on the same
inputs (see the counterexample). -/
theorem varint_duplicate_impls_agree :
    (∀ v : Int, WriteVarInt v = WriteVarIntBuf v) ∧
    (∀ input (v : Int) rest, (∀ b ∈ input, b < 256) →
      readVarInt input = .ok (v, rest) →
      ∃ u, readUvarint input = .ok (u, rest) ∧ toInt32 (u % 4294967296) = v) := by
  constructor
  · intro v
    unfold WriteVarInt WriteVarIntBuf
    exact writeVarIntLoop_eq_putUvarint (u32 v)
  · intro input v rest hbytes hok
    exact readVarIntLoop_refines input 0 0 0 0 hbytes (by omega) (by omega) (by omega)
      v rest hok

/-- Witness for C8's amended statement: both parts applied at concrete
inputs. -/
theorem varint_duplicate_impls_agree_witness :
    WriteVarInt 300 = WriteVarIntBuf 300 ∧
    ∃ u, readUvarint [129, 1] = .ok (u, []) ∧ toInt32 (u % 4294967296) = 129 :=
  ⟨varint_duplicate_impls_agree.1 300,
    varint_duplicate_impls_agree.2 [129, 1] 129 [] (by decide) rfl⟩

-- ## Unicode un-escaping (server.go lines 275-290)

/-- Hexadecimal digit value, as accepted by `strconv.ParseUint` with
base 16: `0-9`, `a-f`, `A-F`. -/
def hexDigitVal (c : Nat) : Option Nat :=
  if 48 ≤ c ∧ c ≤ 57 then some (c - 48)
  else if 97 ≤ c ∧ c ≤ 102 then some (c - 87)
  else if 65 ≤ c ∧ c ≤ 70 then some (c - 55)
  else none

def parseUintHexLoop : List Nat → Nat → Option Nat
  | [], acc => some acc
  | c :: cs, acc =>
    match hexDigitVal c with
    | some d => parseUintHexLoop cs (acc * 16 + d)
    | none => none

/-- `strconv.ParseUint(s, 16, 32)` on a short byte string: fails on the
empty string or any non-hex character.  (The per-digit overflow check
cannot fire on the 4-character windows used here and is not modelled.) -/
def parseUintHex (cs : List Nat) : Option Nat :=
  if cs = [] then none else parseUintHexLoop cs 0

/-- `strconv.ParseInt(s, 16, 32)`, as invoked on `s[i+2:i+6]`: an
optional leading `+` or `-` sign, then hex digits, then the
32-bit-signed range check. -/
def parseHex16 (cs : List Nat) : Option Int :=
  match cs with
  | [] => none
  | c :: rest =>
    if c = 43 then
      (parseUintHex rest).bind fun n =>
        if n > 2147483647 then none else some (Int.ofNat n)
    else if c = 45 then
      (parseUintHex rest).bind fun n =>
        if n > 2147483648 then none else some (-(Int.ofNat n))
    else
      (parseUintHex (c :: rest)).bind fun n =>
        if n > 2147483647 then none else some (Int.ofNat n)

/-- `bytes.Buffer.WriteRune` / `utf8.EncodeRune`: UTF-8 encoding of a
code point, with negative values, surrogates and out-of-range values
replaced by U+FFFD. -/
def utf8EncodeRune (r : Int) : List Nat :=
  if r < 0 ∨ (55296 ≤ r ∧ r ≤ 57343) ∨ 1114111 < r then [239, 191, 189]
  else if r.toNat < 128 then [r.toNat]
  else if r.toNat < 2048 then [192 + r.toNat / 64, 128 + r.toNat % 64]
  else if r.toNat < 65536 then
    [224 + r.toNat / 4096, 128 + r.toNat / 64 % 64, 128 + r.toNat % 64]
  else
    [240 + r.toNat / 262144, 128 + r.toNat / 4096 % 64, 128 + r.toNat / 64 % 64,
      128 + r.toNat % 64]

/-- `unescapeUnicode` (`server.go` lines 275-290): scan left to right; at
a `\u` with at least four following bytes, try `strconv.ParseInt` on the
4-byte window and, on success, write the rune and skip six bytes;
otherwise copy one byte and advance. -/
def unescapeUnicode : List Nat → List Nat
  | 92 :: 117 :: c1 :: c2 :: c3 :: c4 :: rest =>
    (match parseHex16 [c1, c2, c3, c4] with
    | some r => utf8EncodeRune r ++ unescapeUnicode rest
    | none => 92 :: unescapeUnicode (117 :: c1 :: c2 :: c3 :: c4 :: rest))
  | c :: rest => c :: unescapeUnicode rest
  | [] => []
termination_by s => s.length
decreasing_by all_goals (simp; try omega)

/-- A hexadecimal-digit byte (the well-formedness test of the claimed
`\uXXXX` escape shape). -/
def isHexDigit (c : Nat) : Bool :=
  (48 ≤ c && c ≤ 57) || (97 ≤ c && c ≤ 102) || (65 ≤ c && c ≤ 70)

/-- Whether a well-formed escape sequence — a backslash, `u`, and four
hex digits — starts at the head of the byte string. -/
def isEscapeStart : List Nat → Bool
  | 92 :: 117 :: c1 :: c2 :: c3 :: c4 :: _ =>
    isHexDigit c1 && isHexDigit c2 && isHexDigit c3 && isHexDigit c4
  | _ => false

/-- Whether a byte string contains a well-formed escape sequence at any
position. -/
def containsEscape : List Nat → Bool
  | [] => false
  | c :: rest => isEscapeStart (c :: rest) || containsEscape rest

/-- The hex value of a digit byte (0 for non-digits). -/
def hexNat (c : Nat) : Nat := (hexDigitVal c).getD 0

-- ## C5: un-escape behavior

theorem hexDigitVal_of_isHexDigit (c : Nat) (h : isHexDigit c = true) :
    hexDigitVal c = some (hexNat c) ∧ hexNat c ≤ 15 := by
  unfold isHexDigit at h
  simp only [Bool.or_eq_true, Bool.and_eq_true, decide_eq_true_eq] at h
  unfold hexNat hexDigitVal
  rcases h with (⟨h1, h2⟩ | ⟨h1, h2⟩) | ⟨h1, h2⟩
  · rw [if_pos ⟨h1, h2⟩]
    exact ⟨by simp, by simp; omega⟩
  · rw [if_neg (by omega), if_pos ⟨h1, h2⟩]
    exact ⟨by simp, by simp; omega⟩
  · rw [if_neg (by omega), if_neg (by omega), if_pos ⟨h1, h2⟩]
    exact ⟨by simp, by simp; omega⟩

theorem parseHex16_hexDigits (c1 c2 c3 c4 : Nat) (h1 : isHexDigit c1 = true)
    (h2 : isHexDigit c2 = true) (h3 : isHexDigit c3 = true) (h4 : isHexDigit c4 = true) :
    parseHex16 [c1, c2, c3, c4] =
      some (Int.ofNat (hexNat c1 * 4096 + hexNat c2 * 256 + hexNat c3 * 16 + hexNat c4)) := by
  obtain ⟨e1, b1⟩ := hexDigitVal_of_isHexDigit c1 h1
  obtain ⟨e2, b2⟩ := hexDigitVal_of_isHexDigit c2 h2
  obtain ⟨e3, b3⟩ := hexDigitVal_of_isHexDigit c3 h3
  obtain ⟨e4, b4⟩ := hexDigitVal_of_isHexDigit c4 h4
  have hc143 : c1 ≠ 43 := fun hEq => by subst hEq; exact absurd h1 (by decide)
  have hc145 : c1 ≠ 45 := fun hEq => by subst hEq; exact absurd h1 (by decide)
  unfold parseHex16
  dsimp only
  rw [if_neg hc143, if_neg hc145]
  unfold parseUintHex
  rw [if_neg (by simp)]
  simp only [parseUintHexLoop, e1, e2, e3, e4]
  simp only [Option.bind]
  rw [if_neg (by omega)]
  have hAB : (((0 * 16 + hexNat c1) * 16 + hexNat c2) * 16 + hexNat c3) * 16 + hexNat c4
      = hexNat c1 * 4096 + hexNat c2 * 256 + hexNat c3 * 16 + hexNat c4 := by ring
  rw [hAB]

/-- Counterexample to C5: the window of `\u+041` contains a non-hex
character (`+`), so the claim says it is left unchanged verbatim — but
Go's `strconv.ParseInt` accepts the sign, and the sequence is replaced
by `A`. -/
theorem unescapeUnicode_sign_window_replaced :
    unescapeUnicode [92, 117, 43, 48, 52, 49] = [65] ∧
    unescapeUnicode [92, 117, 43, 48, 52, 49] ≠ [92, 117, 43, 48, 52, 49] := by
  constructor <;>
    simp [unescapeUnicode, parseHex16, parseUintHex, parseUintHexLoop, hexDigitVal,
      utf8EncodeRune]

/-- C5 (amended): each `\u` window whose four characters parse under
`strconv.ParseInt(·, 16, 32)` — four hex digits, or a `+`/`-` sign
followed by hex digits — is replaced by the UTF-8 encoding of the parsed
value (with negatives, surrogates and out-of-range values becoming
U+FFFD); windows that fail that signed-hex parse are copied verbatim;
four plain hex digits always parse, to the value they denote.
`"Café"` maps to `"Café"` and `"50% \uZZZZ off"` to itself, and the
function never fails (it is total). -/
theorem unescapeUnicode_behavior :
    (∀ c1 c2 c3 c4 rest r, parseHex16 [c1, c2, c3, c4] = some r →
      unescapeUnicode (92 :: 117 :: c1 :: c2 :: c3 :: c4 :: rest) =
        utf8EncodeRune r ++ unescapeUnicode rest) ∧
    (∀ c1 c2 c3 c4 rest, parseHex16 [c1, c2, c3, c4] = none →
      unescapeUnicode (92 :: 117 :: c1 :: c2 :: c3 :: c4 :: rest) =
        92 :: unescapeUnicode (117 :: c1 :: c2 :: c3 :: c4 :: rest)) ∧
    (∀ c1 c2 c3 c4, isHexDigit c1 = true → isHexDigit c2 = true → isHexDigit c3 = true →
      isHexDigit c4 = true →
      parseHex16 [c1, c2, c3, c4] =
        some (Int.ofNat (hexNat c1 * 4096 + hexNat c2 * 256 + hexNat c3 * 16 + hexNat c4))) ∧
    unescapeUnicode [67, 97, 102, 92, 117, 48, 48, 101, 57] = [67, 97, 102, 195, 169] ∧
    unescapeUnicode [53, 48, 37, 32, 92, 117, 90, 90, 90, 90, 32, 111, 102, 102] =
      [53, 48, 37, 32, 92, 117, 90, 90, 90, 90, 32, 111, 102, 102] := by
  refine ⟨?_, ?_, parseHex16_hexDigits, ?_, ?_⟩
  · intro c1 c2 c3 c4 rest r h
    rw [unescapeUnicode]
    simp only [h]
  · intro c1 c2 c3 c4 rest h
    rw [unescapeUnicode]
    simp only [h]
  · simp [unescapeUnicode, parseHex16, parseUintHex, parseUintHexLoop, hexDigitVal,
      utf8EncodeRune]
  · simp [unescapeUnicode, parseHex16, parseUintHex, parseUintHexLoop, hexDigitVal,
      utf8EncodeRune]

/-- Witness for C5's amended statement: a parsing window is replaced, a
failing window is copied verbatim. -/
theorem unescapeUnicode_behavior_witness :
    unescapeUnicode (92 :: 117 :: 48 :: 48 :: 52 :: 49 :: [33]) =
      utf8EncodeRune 65 ++ unescapeUnicode [33] ∧
    unescapeUnicode (92 :: 117 :: 90 :: 90 :: 90 :: 90 :: [33]) =
      92 :: unescapeUnicode (117 :: 90 :: 90 :: 90 :: 90 :: [33]) :=
  ⟨unescapeUnicode_behavior.1 48 48 52 49 [33] 65
      (by simp [parseHex16, parseUintHex, parseUintHexLoop, hexDigitVal]),
    unescapeUnicode_behavior.2.1 90 90 90 90 [33]
      (by simp [parseHex16, parseUintHex, parseUintHexLoop, hexDigitVal])⟩

-- ## C6 machinery: bytes that can re-form an escape sequence

/-- A byte that can participate in a well-formed escape sequence:
backslash, `u`, or a hex digit. -/
def isVByte (b : Nat) : Bool := (b = 92 : Bool) || (b = 117 : Bool) || isHexDigit b

/-- A code point whose UTF-8 encoding contains a byte that can
participate in an escape sequence: `\`, `u`, or a hex digit (all other
single-byte code points, and every multi-byte encoding, are inert). -/
def reformByte (r : Int) : Bool :=
  decide (r = 92) || decide (r = 117) ||
    (decide (48 ≤ r) && decide (r ≤ 57)) ||
    (decide (65 ≤ r) && decide (r ≤ 70)) ||
    (decide (97 ≤ r) && decide (r ≤ 102))

/-- Whether the escape window at the head of the string parses to a
code point that can re-form an escape sequence. -/
def reformAt : List Nat → Bool
  | 92 :: 117 :: c1 :: c2 :: c3 :: c4 :: _ =>
    (match parseHex16 [c1, c2, c3, c4] with
    | some r => reformByte r
    | none => false)
  | _ => false

/-- Whether any escape window in the string resolves to a re-forming
code point. -/
def hasReformEscape : List Nat → Bool
  | [] => false
  | c :: rest => reformAt (c :: rest) || hasReformEscape rest

-- ## C6 lemmas

theorem isEscapeStart_false_of_head (c : Nat) (t : List Nat) (hc : c ≠ 92) :
    isEscapeStart (c :: t) = false := by
  rw [isEscapeStart.eq_def]
  split
  · rename_i heq
    exfalso
    apply hc
    injection heq with h1 h2
  · rfl

theorem isEscapeStart_true_elim (x : List Nat) (h : isEscapeStart x = true) :
    ∃ c1 c2 c3 c4 rest, x = 92 :: 117 :: c1 :: c2 :: c3 :: c4 :: rest ∧
      isHexDigit c1 = true ∧ isHexDigit c2 = true ∧ isHexDigit c3 = true ∧
      isHexDigit c4 = true := by
  rw [isEscapeStart.eq_def] at h
  split at h
  · rename_i c1 c2 c3 c4 rest
    simp only [Bool.and_eq_true] at h
    exact ⟨c1, c2, c3, c4, rest, rfl, h.1.1.1, h.1.1.2, h.1.2, h.2⟩
  · exact absurd h (by simp)

theorem hasReform_head {c : Nat} {t : List Nat}
    (h : hasReformEscape (c :: t) = false) : reformAt (c :: t) = false := by
  rw [hasReformEscape] at h
  exact (Bool.or_eq_false_iff.mp h).1

theorem hasReform_tail {c : Nat} {t : List Nat}
    (h : hasReformEscape (c :: t) = false) : hasReformEscape t = false := by
  rw [hasReformEscape] at h
  exact (Bool.or_eq_false_iff.mp h).2

theorem isVByte_false_of_ge128 (b : Nat) (h : 128 ≤ b) : isVByte b = false := by
  simp only [isVByte, isHexDigit, Bool.or_eq_false_iff, Bool.and_eq_false_iff,
    decide_eq_false_iff_not]
  omega

theorem isVByte_of_hex (b : Nat) (h : isHexDigit b = true) : isVByte b = true := by
  simp only [isVByte, h, Bool.or_true]

theorem isVByte_ne92 (b : Nat) (h : isVByte b = false) : b ≠ 92 := by
  intro hEq
  subst hEq
  exact absurd h (by decide)

theorem utf8EncodeRune_ne_nil (r : Int) : utf8EncodeRune r ≠ [] := by
  unfold utf8EncodeRune
  repeat' split
  all_goals simp

theorem utf8EncodeRune_not_V (r : Int) (h : reformByte r = false) :
    ∀ x ∈ utf8EncodeRune r, isVByte x = false := by
  intro x hx
  unfold utf8EncodeRune at hx
  split at hx
  · simp only [List.mem_cons, List.not_mem_nil, or_false] at hx
    rcases hx with rfl | rfl | rfl <;> decide
  · rename_i hvalid
    push_neg at hvalid
    split at hx
    · simp only [List.mem_cons, List.not_mem_nil, or_false] at hx
      subst hx
      simp only [reformByte, Bool.or_eq_false_iff, Bool.and_eq_false_iff,
        decide_eq_false_iff_not] at h
      simp only [isVByte, isHexDigit, Bool.or_eq_false_iff, Bool.and_eq_false_iff,
        decide_eq_false_iff_not]
      omega
    · split at hx
      · simp only [List.mem_cons, List.not_mem_nil, or_false] at hx
        rcases hx with rfl | rfl <;> exact isVByte_false_of_ge128 _ (by omega)
      · split at hx
        · simp only [List.mem_cons, List.not_mem_nil, or_false] at hx
          rcases hx with rfl | rfl | rfl <;> exact isVByte_false_of_ge128 _ (by omega)
        · simp only [List.mem_cons, List.not_mem_nil, or_false] at hx
          rcases hx with rfl | rfl | rfl | rfl <;> exact isVByte_false_of_ge128 _ (by omega)

theorem containsEscape_append (pre out : List Nat) (hpre : ∀ x ∈ pre, x ≠ 92)
    (hout : containsEscape out = false) : containsEscape (pre ++ out) = false := by
  induction pre with
  | nil => simpa
  | cons p pre' ih =>
    rw [List.cons_append, containsEscape,
      isEscapeStart_false_of_head p _ (hpre p (List.mem_cons_self p pre')),
      ih (fun x hx => hpre x (List.mem_cons_of_mem _ hx))]
    rfl

theorem unescape_head_V (w : List Nat) (hw : hasReformEscape w = false) (b : Nat)
    (hb : isVByte b = true) (o : List Nat) (heq : unescapeUnicode w = b :: o) :
    ∃ w', w = b :: w' ∧ o = unescapeUnicode w' ∧ hasReformEscape w' = false := by
  rw [unescapeUnicode.eq_def] at heq
  split at heq
  · rename_i c1 c2 c3 c4 rest
    cases hp : parseHex16 [c1, c2, c3, c4] with
    | some r =>
      simp only [hp] at heq
      exfalso
      have hra := hasReform_head hw
      have hrb : reformByte r = false := by
        rw [reformAt, hp] at hra
        exact hra
      obtain ⟨y, ys, hys⟩ : ∃ y ys, utf8EncodeRune r = y :: ys := by
        cases hcase : utf8EncodeRune r with
        | nil => exact absurd hcase (utf8EncodeRune_ne_nil r)
        | cons y ys => exact ⟨y, ys, rfl⟩
      rw [hys, List.cons_append] at heq
      obtain ⟨hyb, _⟩ := List.cons_eq_cons.mp heq
      have hyV := utf8EncodeRune_not_V r hrb y (by rw [hys]; exact List.mem_cons_self _ _)
      rw [hyb, hb] at hyV
      exact Bool.true_eq_false ▸ hyV
    | none =>
      simp only [hp] at heq
      obtain ⟨h1, h2⟩ := List.cons_eq_cons.mp heq
      exact ⟨117 :: c1 :: c2 :: c3 :: c4 :: rest, by rw [← h1], h2.symm,
        hasReform_tail hw⟩
  · rename_i c rest hside
    obtain ⟨h1, h2⟩ := List.cons_eq_cons.mp heq
    exact ⟨rest, by rw [h1], h2.symm, hasReform_tail hw⟩
  · exact absurd heq (by simp)

theorem unescapeUnicode_window_some (c1 c2 c3 c4 : Nat) (rest : List Nat) (r : Int)
    (hp : parseHex16 [c1, c2, c3, c4] = some r) :
    unescapeUnicode (92 :: 117 :: c1 :: c2 :: c3 :: c4 :: rest) =
      utf8EncodeRune r ++ unescapeUnicode rest := by
  rw [unescapeUnicode]
  simp only [hp]

theorem unescapeUnicode_window_none (c1 c2 c3 c4 : Nat) (rest : List Nat)
    (hp : parseHex16 [c1, c2, c3, c4] = none) :
    unescapeUnicode (92 :: 117 :: c1 :: c2 :: c3 :: c4 :: rest) =
      92 :: unescapeUnicode (117 :: c1 :: c2 :: c3 :: c4 :: rest) := by
  rw [unescapeUnicode]
  simp only [hp]

theorem unescapeUnicode_cons_ne92 (c : Nat) (t : List Nat) (hc : c ≠ 92) :
    unescapeUnicode (c :: t) = c :: unescapeUnicode t := by
  rw [unescapeUnicode.eq_def]
  split
  · rename_i heq
    exfalso
    apply hc
    injection heq with h1 h2
  · rename_i c' rest hside heq
    injection heq with h1 h2
    rw [h1, h2]
  · rename_i heq
    exact absurd heq (by simp)

theorem unescape_no_reform_aux (n : Nat) :
    ∀ s, s.length ≤ n → hasReformEscape s = false →
      containsEscape (unescapeUnicode s) = false := by
  induction n with
  | zero =>
    intro s hs _
    have hnil : s = [] := List.eq_nil_of_length_eq_zero (by omega)
    subst hnil
    simp [unescapeUnicode, containsEscape]
  | succ n ih =>
    intro s hs hrf
    rw [unescapeUnicode.eq_def]
    split
    · rename_i c1 c2 c3 c4 rest
      have hrest : hasReformEscape rest = false :=
        hasReform_tail (hasReform_tail (hasReform_tail (hasReform_tail
          (hasReform_tail (hasReform_tail hrf)))))
      have hlen : rest.length ≤ n := by
        simp only [List.length_cons] at hs
        omega
      cases hp : parseHex16 [c1, c2, c3, c4] with
      | some r =>
        simp only [hp]
        have hrb : reformByte r = false := by
          have hra := hasReform_head hrf
          rw [reformAt, hp] at hra
          exact hra
        refine containsEscape_append _ _ ?_ (ih rest hlen hrest)
        intro x hx
        exact isVByte_ne92 x (utf8EncodeRune_not_V r hrb x hx)
      | none =>
        simp only [hp]
        rw [containsEscape]
        refine Bool.or_eq_false_iff.mpr ⟨?_, ih (117 :: c1 :: c2 :: c3 :: c4 :: rest)
          (by simp only [List.length_cons] at hs ⊢; omega) (hasReform_tail hrf)⟩
        by_contra hcon
        rw [Bool.not_eq_false] at hcon
        obtain ⟨d1, d2, d3, d4, drest, hshape, hx1, hx2, hx3, hx4⟩ :=
          isEscapeStart_true_elim _ hcon
        obtain ⟨-, hshape2⟩ := List.cons_eq_cons.mp hshape
        rw [unescapeUnicode_cons_ne92 117 _ (by omega)] at hshape2
        obtain ⟨-, hshape3⟩ := List.cons_eq_cons.mp hshape2
        have hw0 : hasReformEscape (c1 :: c2 :: c3 :: c4 :: rest) = false :=
          hasReform_tail (hasReform_tail hrf)
        obtain ⟨w1, he1, ho1, hw1⟩ :=
          unescape_head_V _ hw0 d1 (isVByte_of_hex _ hx1) _ hshape3
        obtain ⟨hc1, hw1eq⟩ := List.cons_eq_cons.mp he1
        obtain ⟨w2, he2, ho2, hw2⟩ :=
          unescape_head_V w1 hw1 d2 (isVByte_of_hex _ hx2) _ ho1.symm
        rw [← hw1eq] at he2
        obtain ⟨hc2, hw2eq⟩ := List.cons_eq_cons.mp he2
        obtain ⟨w3, he3, ho3, hw3⟩ :=
          unescape_head_V w2 hw2 d3 (isVByte_of_hex _ hx3) _ ho2.symm
        rw [← hw2eq] at he3
        obtain ⟨hc3, hw3eq⟩ := List.cons_eq_cons.mp he3
        obtain ⟨w4, he4, ho4, hw4⟩ :=
          unescape_head_V w3 hw3 d4 (isVByte_of_hex _ hx4) _ ho3.symm
        rw [← hw3eq] at he4
        obtain ⟨hc4, -⟩ := List.cons_eq_cons.mp he4
        have hsome := parseHex16_hexDigits c1 c2 c3 c4 (hc1.symm ▸ hx1)
          (hc2.symm ▸ hx2) (hc3.symm ▸ hx3) (hc4.symm ▸ hx4)
        rw [hp] at hsome
        exact absurd hsome (by simp)
    · rename_i c rest hside
      have hlen : rest.length ≤ n := by
        simp only [List.length_cons] at hs
        omega
      rw [containsEscape]
      refine Bool.or_eq_false_iff.mpr ⟨?_, ih rest hlen (hasReform_tail hrf)⟩
      by_cases hc : c = 92
      · subst hc
        by_contra hcon
        rw [Bool.not_eq_false] at hcon
        obtain ⟨d1, d2, d3, d4, drest, hshape, hx1, hx2, hx3, hx4⟩ :=
          isEscapeStart_true_elim _ hcon
        obtain ⟨-, hshape2⟩ := List.cons_eq_cons.mp hshape
        have hrt : hasReformEscape rest = false := hasReform_tail hrf
        obtain ⟨w1, he1, ho1, hw1⟩ := unescape_head_V rest hrt 117 (by decide) _ hshape2
        obtain ⟨w2, he2, ho2, hw2⟩ :=
          unescape_head_V w1 hw1 d1 (isVByte_of_hex _ hx1) _ ho1.symm
        obtain ⟨w3, he3, ho3, hw3⟩ :=
          unescape_head_V w2 hw2 d2 (isVByte_of_hex _ hx2) _ ho2.symm
        obtain ⟨w4, he4, ho4, hw4⟩ :=
          unescape_head_V w3 hw3 d3 (isVByte_of_hex _ hx3) _ ho3.symm
        obtain ⟨w5, he5, ho5, hw5⟩ :=
          unescape_head_V w4 hw4 d4 (isVByte_of_hex _ hx4) _ ho4.symm
        apply hside d1 d2 d3 d4 w5 rfl
        rw [he1, he2, he3, he4, he5]
      · exact isEscapeStart_false_of_head c _ hc
    · simp [containsEscape]

-- ## JSON model and the decode stage of GetServerStatus (lines 154-184)

/-- A decoded JSON document.  String values are byte strings (Go strings
after JSON string decoding); numbers are modelled as integers (the
payloads in question carry only integral numbers — floating point is not
modelled). -/
inductive Jval where
  | str (s : List Nat)
  | num (n : Int)
  | bool (b : Bool)
  | null
  | arr (elems : List Jval)
  | obj (fields : List (String × Jval))

/-- Access into a decoded `map[string]interface{}` (the maps built when a
JSON object is decoded into `interface{}`): keys are exact, and a later
duplicate key overwrote an earlier one while the map was built, so the
last binding wins. -/
def mapGet (fs : List (String × Jval)) (k : String) : Option Jval :=
  fs.foldl (fun acc kv => if kv.1 = k then some kv.2 else acc) none

/-- The `ServerStatus` struct of `server.go` (lines 17-38), with Go zero
values as defaults. -/
structure StatusVersion where
  name : List Nat := []
  protocol : Int := 0
deriving DecidableEq

structure PlayerSample where
  name : List Nat := []
  id : List Nat := []
deriving DecidableEq

structure StatusPlayers where
  max : Int := 0
  online : Int := 0
  sample : List PlayerSample := []
deriving DecidableEq

structure DescriptionExtra where
  text : List Nat := []
  color : List Nat := []
deriving DecidableEq

structure StatusDescription where
  text : List Nat := []
  extra : List DescriptionExtra := []
deriving DecidableEq

structure ServerStatus where
  version : StatusVersion := {}
  players : StatusPlayers := {}
  description : StatusDescription := {}
  favicon : List Nat := []
deriving DecidableEq

/-- ASCII case folding of one character (`A`-`Z` to lower case). -/
def asciiFoldChar (c : Char) : Char :=
  if 65 ≤ c.toNat ∧ c.toNat ≤ 90 then Char.ofNat (c.toNat + 32) else c

/-- `encoding/json`'s field-name match: an incoming object key matches a
struct field (here always a lowercase `json` tag) case-insensitively.
The exact-match preference is immaterial because the target names are
pairwise distinct under folding; `strings.EqualFold`'s non-ASCII simple
case-fold pairs are not modelled (all target names are ASCII). -/
def keyMatches (k : String) (name : String) : Bool :=
  k.data.map asciiFoldChar = name.data

/-!
The following `be…Into` definitions model `encoding/json.Unmarshal`
into the typed `ServerStatus` target.  Decoding is best-effort and
merging: an object's keys are processed in order, each matching key
decoding into the field's *current* value, so an earlier duplicate's
successfully decoded content survives a later duplicate that
type-errors; a type mismatch sets the error flag and leaves the target
value unchanged; JSON `null` is a no-op (except into a slice, which it
sets to nil); arrays decode element-wise into the existing elements and
truncate to the decoded length; unknown keys are ignored; absent keys
leave the zero value without error.
-/

/-- Best-effort decode into a Go `string` field. -/
def beStringInto (cur : List Nat) : Jval → List Nat × Bool
  | .str s => (s, false)
  | .null => (cur, false)
  | _ => (cur, true)

/-- Best-effort decode into a Go `int` field. -/
def beIntInto (cur : Int) : Jval → Int × Bool
  | .num n => (n, false)
  | .null => (cur, false)
  | _ => (cur, true)

/-- Element-wise decode of a JSON array into an existing slice: each
element decodes into the corresponding existing element (or the zero
value past the end), and the result is truncated to the decoded
length. -/
def mergeList (dec : α → Jval → α × Bool) (zero : α) : List α → List Jval → List α × Bool
  | _, [] => ([], false)
  | [], x :: xs =>
    let r := dec zero x
    let rs := mergeList dec zero [] xs
    (r.1 :: rs.1, r.2 || rs.2)
  | c :: cs, x :: xs =>
    let r := dec c x
    let rs := mergeList dec zero cs xs
    (r.1 :: rs.1, r.2 || rs.2)

/-- Best-effort decode into a Go slice field (`null` sets the slice to
nil). -/
def beSliceInto (dec : α → Jval → α × Bool) (zero : α) (cur : List α) :
    Jval → List α × Bool
  | .arr xs => mergeList dec zero cur xs
  | .null => ([], false)
  | _ => (cur, true)

/-- Best-effort decode into the `version` struct. -/
def beVersionInto (cur : StatusVersion) : Jval → StatusVersion × Bool
  | .obj fs =>
    fs.foldl (fun acc kv =>
      if keyMatches kv.1 "name" then
        let r := beStringInto acc.1.name kv.2
        ({ acc.1 with name := r.1 }, acc.2 || r.2)
      else if keyMatches kv.1 "protocol" then
        let r := beIntInto acc.1.protocol kv.2
        ({ acc.1 with protocol := r.1 }, acc.2 || r.2)
      else acc) (cur, false)
  | .null => (cur, false)
  | _ => (cur, true)

/-- Best-effort decode into a `sample` entry. -/
def bePlayerSampleInto (cur : PlayerSample) : Jval → PlayerSample × Bool
  | .obj fs =>
    fs.foldl (fun acc kv =>
      if keyMatches kv.1 "name" then
        let r := beStringInto acc.1.name kv.2
        ({ acc.1 with name := r.1 }, acc.2 || r.2)
      else if keyMatches kv.1 "id" then
        let r := beStringInto acc.1.id kv.2
        ({ acc.1 with id := r.1 }, acc.2 || r.2)
      else acc) (cur, false)
  | .null => (cur, false)
  | _ => (cur, true)

/-- Best-effort decode into the `players` struct. -/
def bePlayersInto (cur : StatusPlayers) : Jval → StatusPlayers × Bool
  | .obj fs =>
    fs.foldl (fun acc kv =>
      if keyMatches kv.1 "max" then
        let r := beIntInto acc.1.max kv.2
        ({ acc.1 with max := r.1 }, acc.2 || r.2)
      else if keyMatches kv.1 "online" then
        let r := beIntInto acc.1.online kv.2
        ({ acc.1 with online := r.1 }, acc.2 || r.2)
      else if keyMatches kv.1 "sample" then
        let r := beSliceInto bePlayerSampleInto {} acc.1.sample kv.2
        ({ acc.1 with sample := r.1 }, acc.2 || r.2)
      else acc) (cur, false)
  | .null => (cur, false)
  | _ => (cur, true)

/-- Best-effort decode into an `extra` entry. -/
def beExtraItemInto (cur : DescriptionExtra) : Jval → DescriptionExtra × Bool
  | .obj fs =>
    fs.foldl (fun acc kv =>
      if keyMatches kv.1 "text" then
        let r := beStringInto acc.1.text kv.2
        ({ acc.1 with text := r.1 }, acc.2 || r.2)
      else if keyMatches kv.1 "color" then
        let r := beStringInto acc.1.color kv.2
        ({ acc.1 with color := r.1 }, acc.2 || r.2)
      else acc) (cur, false)
  | .null => (cur, false)
  | _ => (cur, true)

/-- Best-effort decode into the `description` struct. -/
def beDescriptionInto (cur : StatusDescription) : Jval → StatusDescription × Bool
  | .obj fs =>
    fs.foldl (fun acc kv =>
      if keyMatches kv.1 "text" then
        let r := beStringInto acc.1.text kv.2
        ({ acc.1 with text := r.1 }, acc.2 || r.2)
      else if keyMatches kv.1 "extra" then
        let r := beSliceInto beExtraItemInto {} acc.1.extra kv.2
        ({ acc.1 with extra := r.1 }, acc.2 || r.2)
      else acc) (cur, false)
  | .null => (cur, false)
  | _ => (cur, true)

/-- One top-level key-value pair decoded into the `ServerStatus`
accumulator. -/
def beStatusStep (acc : ServerStatus × Bool) (kv : String × Jval) : ServerStatus × Bool :=
  if keyMatches kv.1 "version" then
    let r := beVersionInto acc.1.version kv.2
    ({ acc.1 with version := r.1 }, acc.2 || r.2)
  else if keyMatches kv.1 "players" then
    let r := bePlayersInto acc.1.players kv.2
    ({ acc.1 with players := r.1 }, acc.2 || r.2)
  else if keyMatches kv.1 "description" then
    let r := beDescriptionInto acc.1.description kv.2
    ({ acc.1 with description := r.1 }, acc.2 || r.2)
  else if keyMatches kv.1 "favicon" then
    let r := beStringInto acc.1.favicon kv.2
    ({ acc.1 with favicon := r.1 }, acc.2 || r.2)
  else acc

/-- Best-effort decode into the whole `ServerStatus` struct. -/
def beServerStatusInto (cur : ServerStatus) : Jval → ServerStatus × Bool
  | .obj fs => fs.foldl beStatusStep (cur, false)
  | .null => (cur, false)
  | _ => (cur, true)

/-- `json.Unmarshal(rawResponse, &status)` into the zero `ServerStatus`:
the best-effort decoded struct together with the flag saying whether an
`UnmarshalTypeError` was recorded (in which case `GetServerStatus` takes
the fallback path with the partially-decoded struct). -/
def unmarshalServerStatus (doc : Jval) : ServerStatus × Bool :=
  beServerStatusInto {} doc

/-- The value stored in the fallback struct's `Description interface{}`
field: keys match the field case-insensitively like any struct field,
and a later duplicate replaces an earlier one (decoding into a plain
`interface{}` builds a fresh value each time, with no merging). -/
def fallbackDescValue (fs : List (String × Jval)) : Option Jval :=
  fs.foldl (fun acc kv => if keyMatches kv.1 "description" then some kv.2 else acc) none

/-- `json.Unmarshal` into the fallback struct
`struct { Description interface{} }` (lines 158-163): succeeds exactly
on a top-level object (yielding its description value, if any) or
`null`; any other well-formed document is a type error and the whole
query fails. -/
def unmarshalFallback : Jval → Except Unit (Option Jval)
  | .obj fs => .ok (fallbackDescValue fs)
  | .null => .ok none
  | _ => .error ()

/-- The `switch` on the fallback description (lines 166-173): a bare
string overwrites the text; an object's `"text"` key overwrites it when
that key holds a string; anything else leaves the previous value. -/
def fallbackDescText (desc : Option Jval) (old : List Nat) : List Nat :=
  match desc with
  | some (.str s) => s
  | some (.obj fs) =>
    (match mapGet fs "text" with
    | some (.str t) => t
    | _ => old)
  | _ => old

/-- The post-processing pass (lines 176-180): un-escape
`description.text` and each `extra[i].text`. -/
def postProcess (st : ServerStatus) : ServerStatus :=
  { st with description :=
      { text := unescapeUnicode st.description.text,
        extra := st.description.extra.map
          (fun e => { e with text := unescapeUnicode e.text }) } }

/-- The decode stage of `GetServerStatus` (lines 154-184): primary parse,
fallback on failure, then the Unicode post-processing pass. -/
def decodeStatus (doc : Jval) : Except Unit ServerStatus :=
  if (unmarshalServerStatus doc).2 then
    match unmarshalFallback doc with
    | .error _ => .error ()
    | .ok desc =>
      .ok (postProcess { (unmarshalServerStatus doc).1 with description :=
        { (unmarshalServerStatus doc).1.description with
          text := fallbackDescText desc (unmarshalServerStatus doc).1.description.text } })
  else .ok (postProcess (unmarshalServerStatus doc).1)

/-- Counterexample to C6: the wire description text `\u0041`
(backslash, `u`, `005C`, then `u0041`) decodes successfully, and the
returned `description.text` is the literal six bytes `A` — a
well-formed escape sequence, because resolving `\` to a backslash
re-formed one. -/
theorem decoded_text_with_escape :
    decodeStatus (Jval.obj [("description",
        Jval.obj [("text", Jval.str [92, 117, 48, 48, 53, 67, 117, 48, 48, 52, 49])])]) =
      .ok ⟨{}, {}, ⟨[92, 117, 48, 48, 52, 49], []⟩, []⟩ ∧
    containsEscape [92, 117, 48, 48, 52, 49] = true := by
  constructor
  · have hpre : unmarshalServerStatus (Jval.obj [("description",
        Jval.obj [("text", Jval.str [92, 117, 48, 48, 53, 67, 117, 48, 48, 52, 49])])]) =
        (⟨{}, {}, ⟨[92, 117, 48, 48, 53, 67, 117, 48, 48, 52, 49], []⟩, []⟩, false) := by
      decide
    unfold decodeStatus
    simp [hpre, postProcess, unescapeUnicode, parseHex16, parseUintHex, parseUintHexLoop,
      hexDigitVal, utf8EncodeRune]
  · decide

/-- C6 (amended): the post-processing pass removes every escape sequence
it reads, but resolution can re-form new ones, so the invariant holds
conditionally: whenever no escape window of the input resolves to a
code point that can participate in an escape (`\`, `u`, or a hex digit),
the output contains no well-formed escape sequence; and every
description text returned by the decode stage is the output of exactly
one such pass. -/
theorem no_residual_escape_conditional :
    (∀ s, hasReformEscape s = false → containsEscape (unescapeUnicode s) = false) ∧
    (∀ doc st, decodeStatus doc = .ok st →
      ∃ s0, st.description.text = unescapeUnicode s0) := by
  constructor
  · intro s h
    exact unescape_no_reform_aux s.length s (le_refl _) h
  · intro doc st h
    unfold decodeStatus at h
    by_cases hp : (unmarshalServerStatus doc).2
    · rw [if_pos hp] at h
      cases hf : unmarshalFallback doc with
      | error e =>
        rw [hf] at h
        exact absurd h (by simp)
      | ok desc =>
        rw [hf] at h
        simp only [Except.ok.injEq] at h
        refine ⟨fallbackDescText desc (unmarshalServerStatus doc).1.description.text, ?_⟩
        rw [← h]
        rfl
    · rw [if_neg hp] at h
      simp only [Except.ok.injEq] at h
      refine ⟨(unmarshalServerStatus doc).1.description.text, ?_⟩
      rw [← h]
      rfl

/-- Witness for C6's amended statement: the text `Café` has no
re-forming escape, so its decoded form contains no escape sequence. -/
theorem no_residual_escape_conditional_witness :
    containsEscape (unescapeUnicode [67, 97, 102, 92, 117, 48, 48, 101, 57]) = false :=
  no_residual_escape_conditional.1 [67, 97, 102, 92, 117, 48, 48, 101, 57] (by decide)

-- ## C9: address parsing (GetServerStatus lines 98-110)

/-- Index of the last occurrence of a character, as `net.SplitHostPort`
finds the last colon. -/
def lastIdx : List Char → Char → Option Nat
  | [], _ => none
  | x :: xs, c =>
    match lastIdx xs c with
    | some i => some (i + 1)
    | none => if x = c then some 0 else none

/-- `net.SplitHostPort`, modelled from the Go standard library
(`net/ipsock.go`): the port starts after the last colon; a leading `[`
starts a bracketed host whose `]` must sit directly before that colon;
a colon inside an unbracketed host, a missing colon, a missing port
after `]`, or any stray bracket is an error (`none`). -/
def splitHostPort (s : List Char) : Option (List Char × List Char) :=
  match lastIdx s ':' with
  | none => none
  | some i =>
    if s.head? = some '[' then
      match s.findIdx? (fun c => c = ']') with
      | none => none
      | some e =>
        if e + 1 = s.length then none
        else if e + 1 = i then
          if (s.drop 1).contains '[' then none
          else if (s.drop (e + 1)).contains ']' then none
          else some ((s.drop 1).take (e - 1), s.drop (i + 1))
        else none
    else
      if (s.take i).contains ':' then none
      else if s.contains '[' then none
      else if s.contains ']' then none
      else some (s.take i, s.drop (i + 1))

/-- The address-resolution step of `GetServerStatus` (lines 99-104): use
the split host and port when `net.SplitHostPort` succeeds; on any split
error take the whole input as the host and default the port string to
`"25565"`. -/
def resolveAddress (s : List Char) : List Char × List Char :=
  match splitHostPort s with
  | some (h, p) => (h, p)
  | none => (s, "25565".toList)

/-- The numeric fast path of `net.LookupPort` (line 107): a nonempty
all-digit port string in range `0..65535` resolves to its value.
(Service-name lookup consults the system services database and is not
modelled.) -/
def lookupPortNumber (p : List Char) : Option Nat :=
  if p ≠ [] ∧ p.all (fun c => c.isDigit) then
    if (p.foldl (fun a c => a * 10 + (c.toNat - 48)) 0) ≤ 65535 then
      some (p.foldl (fun a c => a * 10 + (c.toNat - 48)) 0)
    else none
  else none

/-- C9: address parsing.  When the input splits as `host:port` the split
host and port are used; when it does not split (in particular when no
port is present) the whole input is the host and the port defaults to
`25565`.  `"example.com"` resolves to host `example.com`, port `25565`,
and `"example.com:25566"` to host `example.com`, port `25566`. -/
theorem address_parsing :
    (∀ s h p, splitHostPort s = some (h, p) → resolveAddress s = (h, p)) ∧
    (∀ s, splitHostPort s = none → resolveAddress s = (s, "25565".toList)) ∧
    resolveAddress "example.com".toList = ("example.com".toList, "25565".toList) ∧
    lookupPortNumber "25565".toList = some 25565 ∧
    resolveAddress "example.com:25566".toList = ("example.com".toList, "25566".toList) ∧
    lookupPortNumber "25566".toList = some 25566 := by
  refine ⟨?_, ?_, by decide, by decide, by decide, by decide⟩
  · intro s h p hsplit
    rw [resolveAddress, hsplit]
  · intro s hsplit
    rw [resolveAddress, hsplit]

/-- Witness for C9's conditional parts at concrete addresses. -/
theorem address_parsing_witness :
    resolveAddress "a:1".toList = ("a".toList, "1".toList) ∧
    resolveAddress "a:b:c".toList = ("a:b:c".toList, "25565".toList) :=
  ⟨address_parsing.1 "a:1".toList "a".toList "1".toList (by decide),
    address_parsing.2.1 "a:b:c".toList (by decide)⟩
